import Mathlib

/-!
Shallow embedding of `src/lib.rs` of the `product_with_repeat` crate.

The crate offers three iterator shapes sharing one mixed-radix odometer
algorithm:

* `Iter` / `product_with_repeat` — runtime repeat length, digit state a `Vec`;
* `known_size.Iter` / `known_size.product_with_repeat` — compile-time repeat
  length (const generic `REPEAT`), digit state an array;
* `Product` / `product` — `N_ITS` distinct sources, one digit per source.

Slices become `List`, `usize` becomes `Nat` (the digit arithmetic only adds
one and resets to zero, so no overflow modelling is needed), and a Rust panic
(out-of-bounds slice index) is modelled by `Except.error ()`.  `next` on an
iterator value returns the yielded item (`none` = exhausted) together with
the successor iterator state.
-/

/-- Result of driving an iterator with a given amount of fuel:
either some call panicked (out-of-bounds index), or the iterator reported
exhaustion after the listed yields, or the fuel ran out first. -/
inductive RunOut (T : Type) where
  | panicked : List (List T) → RunOut T
  | exhausted : List (List T) → RunOut T
  | fuelOut : List (List T) → RunOut T
  deriving DecidableEq, Repr

/-- The item-building loop of `Iter::next`:
`for &i in &self.state { item.push(&self.items[i]); }`.
Indexing `self.items[i]` panics (here: `none`) when `i` is out of bounds. -/
def buildItem {T : Type} (items : List T) : List Nat → Option (List T)
  | [] => some []
  | d :: ds =>
    match items[d]? with
    | none => none
    | some x =>
      match buildItem items ds with
      | none => none
      | some xs => some (x :: xs)

/-- The carry loop of `Iter::increment_state` (and of its verbatim copy in
`known_size`), acting on the digit list viewed least-significant digit first
(the Rust loop walks `state.iter_mut().rev()`).  Each digit is incremented;
on reaching the radix `len` it is reset to `0` and the carry moves on;
otherwise the loop breaks.  The boolean is the final carry: `true` means the
whole state overflowed. -/
def incAux (len : Nat) : List Nat → List Nat × Bool
  | [] => ([], true)
  | d :: ds =>
    if d + 1 ≥ len then
      let p := incAux len ds
      (0 :: p.1, p.2)
    else ((d + 1) :: ds, false)

/-- `std::array::from_fn(|i| f(i))` with a fallible body: builds
`[f 0, …, f (n-1)]`, propagating a panic (`none`) from any position. -/
def fromFn {T : Type} (f : Nat → Option T) : Nat → Option (List T)
  | 0 => some []
  | n + 1 =>
    match fromFn f n, f n with
    | some xs, some x => some (xs ++ [x])
    | _, _ => none

/-- `Iter<'a, T>`: the runtime-repeat-length product iterator. -/
structure Iter (T : Type) where
  items : List T
  state : List Nat
  completed : Bool
  deriving DecidableEq, Repr

/-- `ProductWithRepeat::product_with_repeat`: fresh iterator, digit state
`vec![0; repeat]`, completion flag `false`. -/
def product_with_repeat {T : Type} (items : List T) (r : Nat) : Iter T :=
  { items := items, state := List.replicate r 0, completed := false }

/-- `Iter::increment_state`: run the carry loop from the least significant
(rightmost) digit, store the updated digits, and set `completed` to the
final carry (`overflowed`). -/
def Iter.increment_state {T : Type} (it : Iter T) : Iter T :=
  let p := incAux it.items.length it.state.reverse
  { it with state := p.1.reverse, completed := p.2 }

/-- `Iter::next`: if completed, yield nothing; otherwise build the output
tuple from the current digits (panicking on an out-of-bounds index), then
increment the state, then return the tuple. -/
def Iter.next {T : Type} (it : Iter T) : Except Unit (Option (List T) × Iter T) :=
  if it.completed then .ok (none, it)
  else
    match buildItem it.items it.state with
    | none => .error ()
    | some item => .ok (some item, it.increment_state)

/-- Drive `Iter.next` up to `fuel` times, collecting the yields. -/
def Iter.run {T : Type} : Nat → Iter T → RunOut T
  | 0, _ => .fuelOut []
  | n + 1, it =>
    match it.next with
    | .error _ => .panicked []
    | .ok (none, _) => .exhausted []
    | .ok (some y, it') =>
      match Iter.run n it' with
      | .panicked ys => .panicked (y :: ys)
      | .exhausted ys => .exhausted (y :: ys)
      | .fuelOut ys => .fuelOut (y :: ys)

/-- The digit states at which `Iter.next` yields an item, in order, up to
`fuel` calls (stops at exhaustion, panic, or fuel exhaustion). -/
def Iter.stateTrace {T : Type} : Nat → Iter T → List (List Nat)
  | 0, _ => []
  | n + 1, it =>
    match it.next with
    | .ok (some _, it') => it.state :: Iter.stateTrace n it'
    | _ => []

namespace known_size

/-- `known_size::Iter<'a, T, REPEAT>`: the compile-time-repeat-length
variant.  The const generic `REPEAT` is the length of `state`. -/
structure Iter (T : Type) where
  items : List T
  state : List Nat
  completed : Bool
  deriving DecidableEq, Repr

/-- `known_size::ProductWithRepeat::product_with_repeat::<REPEAT>`: fresh
iterator, digit state `[0; REPEAT]`, completion flag `false`. -/
def product_with_repeat {T : Type} (items : List T) (r : Nat) : Iter T :=
  { items := items, state := List.replicate r 0, completed := false }

/-- `known_size::Iter::increment_state`: a verbatim copy of the runtime
variant's carry loop. -/
def Iter.increment_state {T : Type} (it : Iter T) : Iter T :=
  let p := incAux it.items.length it.state.reverse
  { it with state := p.1.reverse, completed := p.2 }

/-- `known_size::Iter::next`: as the runtime variant, but the output tuple
is built by `std::array::from_fn(|i| &self.items[self.state[i]])`.  The
lookup `self.state[i]` is always in bounds (`i < REPEAT` by type), which the
embedding reflects by the dead `none` branch on the `state` lookup. -/
def Iter.next {T : Type} (it : Iter T) : Except Unit (Option (List T) × Iter T) :=
  if it.completed then .ok (none, it)
  else
    match fromFn (fun i =>
        match it.state[i]? with
        | none => none
        | some d => it.items[d]?) it.state.length with
    | none => .error ()
    | some item => .ok (some item, it.increment_state)

/-- Drive `known_size.Iter.next` up to `fuel` times, collecting the yields. -/
def Iter.run {T : Type} : Nat → Iter T → RunOut T
  | 0, _ => .fuelOut []
  | n + 1, it =>
    match it.next with
    | .error _ => .panicked []
    | .ok (none, _) => .exhausted []
    | .ok (some y, it') =>
      match Iter.run n it' with
      | .panicked ys => .panicked (y :: ys)
      | .exhausted ys => .exhausted (y :: ys)
      | .fuelOut ys => .fuelOut (y :: ys)

end known_size

/-- The carry loop inlined in `Product::next`
(`for (i, r) in self.state.iter_mut().enumerate().rev()`), acting on the
digit list and the per-position radix list, both viewed least-significant
first and of equal length.  Digit `i` overflows against its own radix
`self.items[i].as_ref().len()`. -/
def incAuxM : List Nat → List Nat → List Nat × Bool
  | k :: ks, d :: ds =>
    if d + 1 ≥ k then
      let p := incAuxM ks ds
      (0 :: p.1, p.2)
    else ((d + 1) :: ds, false)
  | _, _ => ([], true)

/-- `Product<'a, T, A, N_ITS>`: the multi-source product iterator.
`N_ITS` is the length of `items` (and, by construction, of `state`). -/
structure Product (T : Type) where
  items : List (List T)
  state : List Nat
  completed : Bool
  deriving DecidableEq, Repr

/-- The free function `product`: fresh iterator, digit state `[0; N_ITS]`,
completion flag `false`. -/
def product {T : Type} (items : List (List T)) : Product T :=
  { items := items, state := List.replicate items.length 0, completed := false }

/-- `Product::next`: if completed, yield nothing; otherwise build the output
tuple by `std::array::from_fn(|i| &self.items[i].as_ref()[self.state[i]])`
(panicking on an out-of-bounds digit), then run the inlined per-radix carry
loop, then return the tuple.  The lookups `self.items[i]` and
`self.state[i]` are in bounds by the type (`i < N_ITS`). -/
def Product.next {T : Type} (it : Product T) :
    Except Unit (Option (List T) × Product T) :=
  if it.completed then .ok (none, it)
  else
    match fromFn (fun i =>
        match it.items[i]?, it.state[i]? with
        | some src, some d => src[d]?
        | _, _ => none) it.items.length with
    | none => .error ()
    | some item =>
      let p := incAuxM (it.items.map List.length).reverse it.state.reverse
      .ok (some item, { it with state := p.1.reverse, completed := p.2 })

/-- Drive `Product.next` up to `fuel` times, collecting the yields. -/
def Product.run {T : Type} : Nat → Product T → RunOut T
  | 0, _ => .fuelOut []
  | n + 1, it =>
    match it.next with
    | .error _ => .panicked []
    | .ok (none, _) => .exhausted []
    | .ok (some y, it') =>
      match Product.run n it' with
      | .panicked ys => .panicked (y :: ys)
      | .exhausted ys => .exhausted (y :: ys)
      | .fuelOut ys => .fuelOut (y :: ys)

/-! ### Verification-layer definitions

Abstract counterparts used to state and prove properties of the embedded
iterators: mixed-radix values and digit lists (least-significant first),
the most-significant-first digit state an iterator holds after a given
number of yields, and the tuple an iterator yields from a given state. -/

/-- Value of a digit list under mixed radices, both least-significant
first: `valM (k :: ks) (d :: ds) = d + k * valM ks ds`. -/
def valM : List Nat → List Nat → Nat
  | k :: ks, d :: ds => d + k * valM ks ds
  | _, _ => 0

/-- Canonical digit list of `n` under mixed radices `ks`, least-significant
first, one digit per radix. -/
def digitsM : List Nat → Nat → List Nat
  | [], _ => []
  | k :: ks, n => n % k :: digitsM ks (n / k)

/-- Least-significant-first radix list of a multi-source iterator: the
source lengths, reversed (the odometer's least significant digit is the
rightmost one). -/
def radOf {T : Type} (sources : List (List T)) : List Nat :=
  (sources.map List.length).reverse

/-- The (most-significant-first) digit state of a multi-source iterator
whose counter value is `v`. -/
def stateAt {T : Type} (sources : List (List T)) (v : Nat) : List Nat :=
  (digitsM (radOf sources) v).reverse

/-- The (most-significant-first) digit state of a single-source iterator
with radix `k` and `r` digit positions whose counter value is `v`. -/
def stateAtU (k r v : Nat) : List Nat :=
  (digitsM (List.replicate r k) v).reverse

/-- The tuple a single-source iterator yields from digit state `ds`. -/
def yieldOfU {T : Type} (items : List T) (ds : List Nat) : List T :=
  ds.filterMap (fun d => items[d]?)

/-- The tuple a multi-source iterator yields from digit state `ds`
(position `i` drawn from source `i`). -/
def yieldOf {T : Type} (sources : List (List T)) (ds : List Nat) : List T :=
  (List.zipWith (fun (src : List T) d => src[d]?) sources ds).reduceOption

/-- Sequence a list of options, failing if any entry is `none` (the shape
shared by `buildItem` and `fromFn`). -/
def optSeq {T : Type} : List (Option T) → Option (List T)
  | [] => some []
  | none :: _ => none
  | some x :: os =>
    match optSeq os with
    | none => none
    | some xs => some (x :: xs)

/-- One observable step of the runtime-length iterator: the iterator state
after a `next` call (unchanged if the call panics). -/
def Iter.stepState {T : Type} (it : Iter T) : Iter T :=
  match it.next with
  | .ok p => p.2
  | .error _ => it

/-- One observable step of the multi-source iterator: the iterator state
after a `next` call (unchanged if the call panics). -/
def Product.stepState {T : Type} (it : Product T) : Product T :=
  match it.next with
  | .ok p => p.2
  | .error _ => it

/-- Forget the compile-time length of a `known_size` iterator. -/
def knownSizeToIter {T : Type} (it : known_size.Iter T) : Iter T :=
  { items := it.items, state := it.state, completed := it.completed }

section SanityChecks

example :
    Iter.run 5 (product_with_repeat [0, 1] 2) =
      .exhausted [[0, 0], [0, 1], [1, 0], [1, 1]] := by decide

example : Iter.run 2 (product_with_repeat ([] : List Nat) 1) = .panicked [] := by
  decide

example : Iter.run 2 (product_with_repeat ([] : List Nat) 0) = .exhausted [[]] := by
  decide

example :
    Product.run 7 (product [[10, 20], [1, 2, 3]]) =
      .exhausted [[10, 1], [10, 2], [10, 3], [20, 1], [20, 2], [20, 3]] := by
  decide

example : Product.run 2 (product [[0, 1], ([] : List Nat)]) = .panicked [] := by
  decide

example :
    known_size.Iter.run 5 (known_size.product_with_repeat [0, 1] 2) =
      .exhausted [[0, 0], [0, 1], [1, 0], [1, 1]] := by decide

example :
    Iter.stateTrace 5 (product_with_repeat [0, 1] 2) =
      [[0, 0], [0, 1], [1, 0], [1, 1]] := by decide

end SanityChecks

/-! ### Mixed-radix arithmetic lemmas -/

theorem digitsM_length (ks : List Nat) (n : Nat) :
    (digitsM ks n).length = ks.length := by
  induction ks generalizing n with
  | nil => rfl
  | cons k ks ih => simp [digitsM, ih]

theorem digitsM_lt {ks : List Nat} (hk : ∀ k ∈ ks, 0 < k) (n : Nat) :
    List.Forall₂ (· < ·) (digitsM ks n) ks := by
  induction ks generalizing n with
  | nil => exact .nil
  | cons k ks ih =>
    exact .cons (Nat.mod_lt _ (hk k (by simp)))
      (ih (fun q hq => hk q (by simp [hq])) _)

theorem valM_digitsM {ks : List Nat} (n : Nat) :
    valM ks (digitsM ks n) = n % ks.prod := by
  induction ks generalizing n with
  | nil => simp [digitsM, valM, Nat.mod_one]
  | cons k ks ih =>
    simp only [digitsM, valM, List.prod_cons]
    rw [ih (n / k), Nat.mod_mul]

theorem digitsM_valM {ks ds : List Nat} (h : List.Forall₂ (· < ·) ds ks) :
    digitsM ks (valM ks ds) = ds := by
  induction h with
  | nil => rfl
  | @cons d k ds ks h1 h2 ih =>
    have hk0 : 0 < k := Nat.lt_of_le_of_lt (Nat.zero_le _) h1
    simp only [digitsM, valM]
    rw [Nat.add_mul_mod_self_left, Nat.mod_eq_of_lt h1,
      Nat.add_mul_div_left _ _ hk0, Nat.div_eq_of_lt h1, Nat.zero_add, ih]

theorem valM_lt {ks ds : List Nat} (h : List.Forall₂ (· < ·) ds ks) :
    valM ks ds < ks.prod := by
  induction h with
  | nil => simp [valM]
  | @cons d k ds ks h1 h2 ih =>
    simp only [valM, List.prod_cons]
    calc d + k * valM ks ds < k + k * valM ks ds := by omega
      _ = k * (valM ks ds + 1) := by ring
      _ ≤ k * ks.prod := Nat.mul_le_mul_left k ih

theorem digitsM_zero (ks : List Nat) :
    digitsM ks 0 = List.replicate ks.length 0 := by
  induction ks with
  | nil => rfl
  | cons k ks ih => simp [digitsM, ih, List.replicate_succ]

theorem incAuxM_spec {ks ds : List Nat} (hk : ∀ k ∈ ks, 0 < k)
    (h : List.Forall₂ (· < ·) ds ks) :
    incAuxM ks ds =
      (digitsM ks ((valM ks ds + 1) % ks.prod),
        decide (valM ks ds + 1 = ks.prod)) := by
  induction h with
  | nil => simp [incAuxM, valM, digitsM]
  | @cons d k ds ks h1 h2 ih =>
    have hk0 : 0 < k := Nat.lt_of_le_of_lt (Nat.zero_le _) h1
    have hds : valM ks ds < ks.prod := valM_lt h2
    simp only [incAuxM, valM, List.prod_cons]
    by_cases hcarry : d + 1 ≥ k
    · have hd1 : d + 1 = k := by omega
      rw [if_pos hcarry, ih (fun q hq => hk q (by simp [hq]))]
      have hv1 : d + k * valM ks ds + 1 = k * (valM ks ds + 1) := by
        rw [← hd1]; ring
      have hmod : (d + k * valM ks ds + 1) % (k * ks.prod) =
          k * ((valM ks ds + 1) % ks.prod) := by
        rw [hv1, Nat.mul_mod_mul_left]
      rw [hmod]
      have hdig : digitsM (k :: ks) (k * ((valM ks ds + 1) % ks.prod)) =
          0 :: digitsM ks ((valM ks ds + 1) % ks.prod) := by
        simp only [digitsM, Nat.mul_mod_right]
        rw [Nat.mul_div_cancel_left _ hk0]
      rw [hdig]
      have hdec : decide (d + k * valM ks ds + 1 = k * ks.prod) =
          decide (valM ks ds + 1 = ks.prod) := by
        apply decide_eq_decide.mpr
        rw [hv1]
        exact ⟨fun hh => Nat.eq_of_mul_eq_mul_left hk0 hh, fun hh => by rw [hh]⟩
      rw [hdec]
    · have hd1 : d + 1 < k := by omega
      rw [if_neg hcarry]
      have hlt : d + k * valM ks ds + 1 < k * ks.prod :=
        calc d + k * valM ks ds + 1 < k + k * valM ks ds := by omega
          _ = k * (valM ks ds + 1) := by ring
          _ ≤ k * ks.prod := Nat.mul_le_mul_left k hds
      rw [Nat.mod_eq_of_lt hlt]
      have hdig : digitsM (k :: ks) (d + k * valM ks ds + 1) =
          (d + 1) :: ds := by
        have e1 : d + k * valM ks ds + 1 = (d + 1) + k * valM ks ds := by ring
        simp only [digitsM, e1, Nat.add_mul_mod_self_left,
          Nat.add_mul_div_left _ _ hk0]
        rw [Nat.mod_eq_of_lt hd1, Nat.div_eq_of_lt hd1, Nat.zero_add,
          digitsM_valM h2]
      rw [hdig]
      have hdec : decide (d + k * valM ks ds + 1 = k * ks.prod) = false := by
        simp only [decide_eq_false_iff_not]
        omega
      rw [hdec]

theorem incAux_eq_incAuxM (len : Nat) (ds : List Nat) :
    incAux len ds = incAuxM (List.replicate ds.length len) ds := by
  induction ds with
  | nil => rfl
  | cons d ds ih =>
    simp only [incAux, List.length_cons, List.replicate_succ, incAuxM, ih]

theorem forall₂_lt_replicate {xs : List Nat} {n k : Nat} :
    List.Forall₂ (· < ·) xs (List.replicate n k) ↔
      xs.length = n ∧ ∀ x ∈ xs, x < k := by
  induction xs generalizing n with
  | nil =>
    rw [List.forall₂_nil_left_iff, List.replicate_eq_nil_iff]
    constructor
    · rintro rfl
      exact ⟨rfl, fun x hx => absurd hx (List.not_mem_nil x)⟩
    · rintro ⟨h, -⟩
      exact h.symm
  | cons x xs ih =>
    cases n with
    | zero => simp [List.forall₂_nil_right_iff]
    | succ n =>
      simp only [List.replicate_succ, List.forall₂_cons, ih, List.length_cons,
        List.mem_cons, Nat.succ.injEq]
      constructor
      · rintro ⟨h1, h2, h3⟩
        exact ⟨h2, fun e he => he.elim (fun hh => hh ▸ h1) (h3 e)⟩
      · rintro ⟨h1, h2⟩
        exact ⟨h2 x (Or.inl rfl), h1, fun e he => h2 e (Or.inr he)⟩

/-! ### Item-construction lemmas -/

theorem buildItem_eq_optSeq {T : Type} (items : List T) (ds : List Nat) :
    buildItem items ds = optSeq (ds.map (fun d => items[d]?)) := by
  induction ds with
  | nil => rfl
  | cons d ds ih =>
    rw [List.map_cons]
    cases hx : items[d]? <;>
      cases hs : optSeq (List.map (fun d => items[d]?) ds) <;>
        simp [buildItem, optSeq, ih, hx, hs]

theorem buildItem_valid {T : Type} {items : List T} {ds : List Nat}
    (h : ∀ d ∈ ds, d < items.length) :
    buildItem items ds = some (yieldOfU items ds) := by
  induction ds with
  | nil => rfl
  | cons d ds ih =>
    obtain ⟨x, hx⟩ : ∃ x, items[d]? = some x :=
      ⟨_, List.getElem?_eq_getElem (h d (by simp))⟩
    simp [buildItem, hx, ih (fun e he => h e (by simp [he])), yieldOfU,
      List.filterMap_cons, hx]

theorem optSeq_append {T : Type} (xs ys : List (Option T)) :
    optSeq (xs ++ ys) =
      match optSeq xs, optSeq ys with
      | some a, some b => some (a ++ b)
      | _, _ => none := by
  induction xs with
  | nil =>
    rw [List.nil_append]
    cases h : optSeq ys <;> simp [optSeq, h]
  | cons o os ih =>
    rw [List.cons_append]
    cases o <;> cases h1 : optSeq os <;> cases h2 : optSeq ys <;>
      simp [optSeq, ih, h1, h2]

theorem fromFn_eq_optSeq {T : Type} (f : Nat → Option T) (n : Nat) :
    fromFn f n = optSeq ((List.range n).map f) := by
  induction n with
  | zero => rfl
  | succ n ih =>
    rw [List.range_succ, List.map_append, optSeq_append, List.map_cons,
      List.map_nil]
    cases h1 : optSeq ((List.range n).map f) <;> cases h2 : f n <;>
      simp [fromFn, ih, h1, h2, optSeq]

theorem map_range_get {T : Type} (items : List T) (state : List Nat) :
    (List.range state.length).map (fun i =>
      match state[i]? with
      | none => none
      | some d => items[d]?) = state.map (fun d => items[d]?) := by
  induction state with
  | nil => rfl
  | cons d ds ih =>
    rw [List.length_cons, List.range_succ_eq_map, List.map_cons, List.map_map,
      List.map_cons]
    congr 1
    · simp
    · rw [← ih]
      apply List.map_congr_left
      intro i _
      simp [Function.comp]

theorem map_range_get2 {T : Type} (sources : List (List T)) (state : List Nat)
    (h : state.length = sources.length) :
    (List.range sources.length).map (fun i =>
      match sources[i]?, state[i]? with
      | some src, some d => src[d]?
      | _, _ => none) =
      List.zipWith (fun (src : List T) d => src[d]?) sources state := by
  induction sources generalizing state with
  | nil => rfl
  | cons s ss ih =>
    cases state with
    | nil => simp at h
    | cons d ds =>
      rw [List.length_cons, List.range_succ_eq_map, List.map_cons, List.map_map,
        List.zipWith_cons_cons]
      congr 1
      · simp
      · rw [← ih ds (by simpa using h)]
        apply List.map_congr_left
        intro i _
        simp [Function.comp]

theorem optSeq_eq_some_reduceOption {T : Type} {os : List (Option T)}
    (h : ∀ o ∈ os, o ≠ none) :
    optSeq os = some os.reduceOption := by
  induction os with
  | nil => rfl
  | cons o os ih =>
    obtain ⟨x, rfl⟩ := Option.ne_none_iff_exists'.mp (h o (by simp))
    have ih' := ih (fun q hq => h q (by simp [hq]))
    simp [optSeq, ih', List.reduceOption_cons_of_some]

theorem fromFn_state_eq_buildItem {T : Type} (items : List T) (state : List Nat) :
    fromFn (fun i =>
      match state[i]? with
      | none => none
      | some d => items[d]?) state.length = buildItem items state := by
  rw [fromFn_eq_optSeq, map_range_get, ← buildItem_eq_optSeq]

theorem fromFn_sources_eq_some {T : Type} {sources : List (List T)}
    {state : List Nat} (hlen : state.length = sources.length)
    (h : List.Forall₂ (fun d (src : List T) => d < src.length) state sources) :
    fromFn (fun i =>
      match sources[i]?, state[i]? with
      | some src, some d => src[d]?
      | _, _ => none) sources.length = some (yieldOf sources state) := by
  rw [fromFn_eq_optSeq, map_range_get2 sources state hlen, yieldOf]
  apply optSeq_eq_some_reduceOption
  clear hlen
  induction h with
  | nil => simp
  | @cons d src ds srcs h1 h2 ih =>
    rw [List.zipWith_cons_cons]
    intro o ho
    rcases List.mem_cons.mp ho with rfl | ho
    · rw [List.getElem?_eq_getElem h1]
      simp
    · exact ih o ho

/-! ### Step and run characterization, single-source iterator -/

theorem Iter.next_completed {T : Type} {it : Iter T} (h : it.completed = true) :
    it.next = .ok (none, it) := by
  rw [Iter.next, if_pos h]

theorem Iter.run_completed {T : Type} {it : Iter T} (h : it.completed = true)
    (n : Nat) : Iter.run (n + 1) it = .exhausted [] := by
  rw [Iter.run, Iter.next_completed h]

theorem Iter.stateTrace_completed {T : Type} {it : Iter T}
    (h : it.completed = true) (n : Nat) : Iter.stateTrace n it = [] := by
  cases n with
  | zero => rfl
  | succ n => rw [Iter.stateTrace, Iter.next_completed h]

theorem Iter.increment_at {T : Type} (items : List T) (r v : Nat)
    (hpos : ∀ q ∈ List.replicate r items.length, 0 < q)
    (hv : v < items.length ^ r) :
    Iter.increment_state ⟨items, stateAtU items.length r v, false⟩ =
      ⟨items, stateAtU items.length r ((v + 1) % items.length ^ r),
        decide (v + 1 = items.length ^ r)⟩ := by
  have h2 := digitsM_lt hpos v
  have hlen : (digitsM (List.replicate r items.length) v).length = r := by
    rw [digitsM_length, List.length_replicate]
  have hinc := incAuxM_spec hpos h2
  rw [valM_digitsM, List.prod_replicate, Nat.mod_eq_of_lt hv] at hinc
  simp only [Iter.increment_state, stateAtU, List.reverse_reverse]
  rw [incAux_eq_incAuxM, hlen, hinc]

theorem Iter.next_at {T : Type} (items : List T) (r v : Nat)
    (hpos : ∀ q ∈ List.replicate r items.length, 0 < q)
    (hv : v < items.length ^ r) :
    Iter.next ⟨items, stateAtU items.length r v, false⟩ =
      .ok (some (yieldOfU items (stateAtU items.length r v)),
        ⟨items, stateAtU items.length r ((v + 1) % items.length ^ r),
          decide (v + 1 = items.length ^ r)⟩) := by
  have hmem : ∀ d ∈ stateAtU items.length r v, d < items.length := by
    intro d hd
    rw [stateAtU, List.mem_reverse] at hd
    exact (forall₂_lt_replicate.mp (digitsM_lt hpos v)).2 d hd
  have hbuild := buildItem_valid hmem
  rw [Iter.next, if_neg (by simp), hbuild, Iter.increment_at items r v hpos hv]

theorem Iter.run_next_some {T : Type} {it it' : Iter T} {y : List T}
    (h : it.next = .ok (some y, it')) (n : Nat) :
    Iter.run (n + 1) it =
      match Iter.run n it' with
      | .panicked ys => .panicked (y :: ys)
      | .exhausted ys => .exhausted (y :: ys)
      | .fuelOut ys => .fuelOut (y :: ys) := by
  rw [Iter.run, h]

theorem Iter.stateTrace_next_some {T : Type} {it it' : Iter T} {y : List T}
    (h : it.next = .ok (some y, it')) (n : Nat) :
    Iter.stateTrace (n + 1) it = it.state :: Iter.stateTrace n it' := by
  rw [Iter.stateTrace, h]

theorem Iter.run_at {T : Type} (items : List T) (r : Nat)
    (hpos : ∀ q ∈ List.replicate r items.length, 0 < q) :
    ∀ m v, v + m = items.length ^ r → v < items.length ^ r →
      Iter.run (m + 1) ⟨items, stateAtU items.length r v, false⟩ =
        .exhausted ((List.range' v m).map
          (fun n => yieldOfU items (stateAtU items.length r n))) := by
  intro m
  induction m with
  | zero => intro v h1 h2; omega
  | succ m ih =>
    intro v h1 h2
    by_cases hend : v + 1 = items.length ^ r
    · have hm : m = 0 := by omega
      subst hm
      have hnext : Iter.next ⟨items, stateAtU items.length r v, false⟩ =
          .ok (some (yieldOfU items (stateAtU items.length r v)),
            ⟨items, stateAtU items.length r ((v + 1) % items.length ^ r),
              true⟩) := by
        rw [Iter.next_at items r v hpos h2, decide_eq_true hend]
      rw [Iter.run_next_some hnext, Iter.run_completed rfl, List.range'_one,
        List.map_cons, List.map_nil]
    · have hlt : v + 1 < items.length ^ r := by omega
      have hnext : Iter.next ⟨items, stateAtU items.length r v, false⟩ =
          .ok (some (yieldOfU items (stateAtU items.length r v)),
            ⟨items, stateAtU items.length r (v + 1), false⟩) := by
        rw [Iter.next_at items r v hpos h2, decide_eq_false hend,
          Nat.mod_eq_of_lt hlt]
      rw [Iter.run_next_some hnext, ih (v + 1) (by omega) hlt,
        List.range'_succ, List.map_cons]

theorem Iter.run_full {T : Type} (items : List T) (r : Nat)
    (hk : 0 < items.length ∨ r = 0) :
    Iter.run (items.length ^ r + 1) (product_with_repeat items r) =
      .exhausted ((List.range (items.length ^ r)).map
        (fun n => yieldOfU items (stateAtU items.length r n))) := by
  have hpos : ∀ q ∈ List.replicate r items.length, 0 < q := by
    intro q hq
    rcases hk with h | rfl
    · rw [List.eq_of_mem_replicate hq]; exact h
    · simp at hq
  have hinit : product_with_repeat items r =
      ⟨items, stateAtU items.length r 0, false⟩ := by
    rw [product_with_repeat, stateAtU, digitsM_zero, List.length_replicate,
      List.reverse_replicate]
  have hP : 0 < items.length ^ r := by
    rcases hk with h | rfl
    · exact pow_pos h r
    · simp
  rw [hinit, List.range_eq_range']
  exact Iter.run_at items r hpos (items.length ^ r) 0 (by omega) hP

theorem Iter.stateTrace_at {T : Type} (items : List T) (r : Nat)
    (hpos : ∀ q ∈ List.replicate r items.length, 0 < q) :
    ∀ m fuel v, m ≤ fuel → v + m = items.length ^ r →
      v < items.length ^ r →
      Iter.stateTrace fuel ⟨items, stateAtU items.length r v, false⟩ =
        (List.range' v m).map (stateAtU items.length r) := by
  intro m
  induction m with
  | zero => intro fuel v h0 h1 h2; omega
  | succ m ih =>
    intro fuel v h0 h1 h2
    obtain ⟨fuel, rfl⟩ : ∃ f, fuel = f + 1 := ⟨fuel - 1, by omega⟩
    by_cases hend : v + 1 = items.length ^ r
    · have hm : m = 0 := by omega
      subst hm
      have hnext : Iter.next ⟨items, stateAtU items.length r v, false⟩ =
          .ok (some (yieldOfU items (stateAtU items.length r v)),
            ⟨items, stateAtU items.length r ((v + 1) % items.length ^ r),
              true⟩) := by
        rw [Iter.next_at items r v hpos h2, decide_eq_true hend]
      rw [Iter.stateTrace_next_some hnext, Iter.stateTrace_completed rfl fuel,
        List.range'_one, List.map_cons, List.map_nil]
    · have hlt : v + 1 < items.length ^ r := by omega
      have hnext : Iter.next ⟨items, stateAtU items.length r v, false⟩ =
          .ok (some (yieldOfU items (stateAtU items.length r v)),
            ⟨items, stateAtU items.length r (v + 1), false⟩) := by
        rw [Iter.next_at items r v hpos h2, decide_eq_false hend,
          Nat.mod_eq_of_lt hlt]
      rw [Iter.stateTrace_next_some hnext,
        ih fuel (v + 1) (by omega) (by omega) hlt, List.range'_succ,
        List.map_cons]

theorem Iter.stateTrace_full {T : Type} (items : List T) (r : Nat)
    (hk : 0 < items.length ∨ r = 0) :
    Iter.stateTrace (items.length ^ r + 1) (product_with_repeat items r) =
      (List.range (items.length ^ r)).map (stateAtU items.length r) := by
  have hpos : ∀ q ∈ List.replicate r items.length, 0 < q := by
    intro q hq
    rcases hk with h | rfl
    · rw [List.eq_of_mem_replicate hq]; exact h
    · simp at hq
  have hinit : product_with_repeat items r =
      ⟨items, stateAtU items.length r 0, false⟩ := by
    rw [product_with_repeat, stateAtU, digitsM_zero, List.length_replicate,
      List.reverse_replicate]
  have hP : 0 < items.length ^ r := by
    rcases hk with h | rfl
    · exact pow_pos h r
    · simp
  rw [hinit, List.range_eq_range']
  exact Iter.stateTrace_at items r hpos (items.length ^ r)
    (items.length ^ r + 1) 0 (by omega) (by omega) hP

/-! ### Step and run characterization, multi-source iterator -/

theorem prodNext_completed {T : Type} {it : Product T}
    (h : it.completed = true) : it.next = .ok (none, it) := by
  rw [Product.next, if_pos h]

theorem prodRun_completed {T : Type} {it : Product T}
    (h : it.completed = true) (n : Nat) :
    Product.run (n + 1) it = .exhausted [] := by
  rw [Product.run, prodNext_completed h]

theorem prodRun_next_some {T : Type} {it it' : Product T} {y : List T}
    (h : it.next = .ok (some y, it')) (n : Nat) :
    Product.run (n + 1) it =
      match Product.run n it' with
      | .panicked ys => .panicked (y :: ys)
      | .exhausted ys => .exhausted (y :: ys)
      | .fuelOut ys => .fuelOut (y :: ys) := by
  rw [Product.run, h]

theorem radOf_pos {T : Type} {sources : List (List T)}
    (hk : ∀ s ∈ sources, s ≠ []) : ∀ q ∈ radOf sources, 0 < q := by
  intro q hq
  rw [radOf, List.mem_reverse, List.mem_map] at hq
  obtain ⟨s, hs, rfl⟩ := hq
  exact List.length_pos.mpr (hk s hs)

theorem stateAt_length {T : Type} (sources : List (List T)) (v : Nat) :
    (stateAt sources v).length = sources.length := by
  rw [stateAt, List.length_reverse, digitsM_length, radOf,
    List.length_reverse, List.length_map]

theorem stateAt_valid {T : Type} {sources : List (List T)}
    (hpos : ∀ q ∈ radOf sources, 0 < q) (v : Nat) :
    List.Forall₂ (fun d (src : List T) => d < src.length)
      (stateAt sources v) sources := by
  have h1 : List.Forall₂ (· < ·) (stateAt sources v)
      (sources.map List.length) := by
    have h0 : List.Forall₂ (· < ·) (digitsM (radOf sources) v).reverse
        (radOf sources).reverse := List.rel_reverse (digitsM_lt hpos v)
    rwa [radOf, List.reverse_reverse] at h0
  exact List.forall₂_map_right_iff.mp h1

theorem prodNext_at {T : Type} (sources : List (List T)) (v : Nat)
    (hpos : ∀ q ∈ radOf sources, 0 < q)
    (hv : v < (radOf sources).prod) :
    Product.next ⟨sources, stateAt sources v, false⟩ =
      .ok (some (yieldOf sources (stateAt sources v)),
        ⟨sources, stateAt sources ((v + 1) % (radOf sources).prod),
          decide (v + 1 = (radOf sources).prod)⟩) := by
  have hbuild := fromFn_sources_eq_some (stateAt_length sources v)
    (stateAt_valid hpos v)
  have hf2 := digitsM_lt hpos v
  have hinc := incAuxM_spec hpos hf2
  rw [valM_digitsM, Nat.mod_eq_of_lt hv] at hinc
  rw [Product.next, if_neg (by simp), hbuild]
  show Except.ok (some (yieldOf sources (stateAt sources v)), _) = _
  have hrev : (stateAt sources v).reverse = digitsM (radOf sources) v := by
    rw [stateAt, List.reverse_reverse]
  rw [show (sources.map List.length).reverse = radOf sources from rfl, hrev,
    hinc]
  rfl

theorem prodRun_at {T : Type} (sources : List (List T))
    (hpos : ∀ q ∈ radOf sources, 0 < q) :
    ∀ m v, v + m = (radOf sources).prod → v < (radOf sources).prod →
      Product.run (m + 1) ⟨sources, stateAt sources v, false⟩ =
        .exhausted ((List.range' v m).map
          (fun n => yieldOf sources (stateAt sources n))) := by
  intro m
  induction m with
  | zero => intro v h1 h2; omega
  | succ m ih =>
    intro v h1 h2
    by_cases hend : v + 1 = (radOf sources).prod
    · have hm : m = 0 := by omega
      subst hm
      have hnext : Product.next ⟨sources, stateAt sources v, false⟩ =
          .ok (some (yieldOf sources (stateAt sources v)),
            ⟨sources, stateAt sources ((v + 1) % (radOf sources).prod),
              true⟩) := by
        rw [prodNext_at sources v hpos h2, decide_eq_true hend]
      rw [prodRun_next_some hnext, prodRun_completed rfl,
        List.range'_one, List.map_cons, List.map_nil]
    · have hlt : v + 1 < (radOf sources).prod := by omega
      have hnext : Product.next ⟨sources, stateAt sources v, false⟩ =
          .ok (some (yieldOf sources (stateAt sources v)),
            ⟨sources, stateAt sources (v + 1), false⟩) := by
        rw [prodNext_at sources v hpos h2, decide_eq_false hend,
          Nat.mod_eq_of_lt hlt]
      rw [prodRun_next_some hnext, ih (v + 1) (by omega) hlt,
        List.range'_succ, List.map_cons]

theorem prodRun_full {T : Type} (sources : List (List T))
    (hk : ∀ s ∈ sources, s ≠ []) :
    Product.run ((sources.map List.length).prod + 1) (product sources) =
      .exhausted ((List.range ((sources.map List.length).prod)).map
        (fun n => yieldOf sources (stateAt sources n))) := by
  have hpos := radOf_pos hk
  have hprod : (radOf sources).prod = (sources.map List.length).prod :=
    List.prod_reverse _
  have hP : 0 < (radOf sources).prod :=
    List.prod_pos hpos
  have hinit : product sources = ⟨sources, stateAt sources 0, false⟩ := by
    rw [product, stateAt, digitsM_zero, List.reverse_replicate, radOf,
      List.length_reverse, List.length_map]
  rw [hinit, List.range_eq_range', ← hprod]
  exact prodRun_at sources hpos ((radOf sources).prod) 0 (by omega)
    (by omega)

/-! ### Lexicographic structure of the uniform digit states -/

theorem stateAtU_succ_append (k r m : Nat) :
    stateAtU k (r + 1) m = stateAtU k r (m / k) ++ [m % k] := by
  rw [stateAtU, stateAtU, List.replicate_succ, digitsM, List.reverse_cons]

theorem stateAtU_cons (k : Nat) :
    ∀ r n, n < k ^ (r + 1) →
      stateAtU k (r + 1) n = n / k ^ r :: stateAtU k r (n % k ^ r) := by
  intro r
  induction r with
  | zero =>
    intro n hn
    rw [pow_one] at hn
    rw [stateAtU_succ_append, Nat.mod_eq_of_lt hn, pow_zero, Nat.div_one,
      Nat.mod_one]
    rfl
  | succ r ih =>
    intro n hn
    have hk0 : 0 < k := by
      rcases Nat.eq_zero_or_pos k with rfl | h
      · rw [Nat.zero_pow (by omega)] at hn; omega
      · exact h
    have hdiv : n / k < k ^ (r + 1) := by
      rw [Nat.div_lt_iff_lt_mul hk0, ← pow_succ]
      exact hn
    have e1 : n % k ^ (r + 1) / k = n / k % k ^ r := by
      have h0 := Nat.mod_mul_right_div_self n k (k ^ r)
      rwa [← pow_succ'] at h0
    have e2 : n % k ^ (r + 1) % k = n % k :=
      Nat.mod_mod_of_dvd n (dvd_pow_self k (Nat.succ_ne_zero r))
    rw [stateAtU_succ_append, ih (n / k) hdiv, Nat.div_div_eq_div_mul,
      ← pow_succ', List.cons_append,
      stateAtU_succ_append k r (n % k ^ (r + 1)), e1, e2]

theorem stateAtU_lex (k : Nat) :
    ∀ r m n, m < n → n < k ^ r →
      List.Lex (· < ·) (stateAtU k r m) (stateAtU k r n) := by
  intro r
  induction r with
  | zero => intro m n h1 h2; rw [pow_zero] at h2; omega
  | succ r ih =>
    intro m n h1 h2
    have hm : m < k ^ (r + 1) := by omega
    rw [stateAtU_cons k r m hm, stateAtU_cons k r n h2]
    rcases Nat.lt_or_ge (m / k ^ r) (n / k ^ r) with hq | hq
    · exact List.Lex.rel hq
    · have hq' : m / k ^ r = n / k ^ r :=
        Nat.le_antisymm (Nat.div_le_div_right (Nat.le_of_lt h1)) hq
      have em := Nat.div_add_mod m (k ^ r)
      have en := Nat.div_add_mod n (k ^ r)
      rw [hq'] at em
      have hmod : m % k ^ r < n % k ^ r := by omega
      have hk0 : 0 < k := by
        rcases Nat.eq_zero_or_pos k with rfl | h
        · rw [Nat.zero_pow (by omega)] at h2; omega
        · exact h
      have hnmod : n % k ^ r < k ^ r := Nat.mod_lt _ (pow_pos hk0 r)
      rw [hq']
      exact List.Lex.cons (ih (m % k ^ r) (n % k ^ r) hmod hnmod)

theorem stateAtU_inj (k r : Nat) {m n : Nat} (hm : m < k ^ r)
    (hn : n < k ^ r) (h : stateAtU k r m = stateAtU k r n) : m = n := by
  have h' : digitsM (List.replicate r k) m = digitsM (List.replicate r k) n := by
    have h0 := congrArg List.reverse h
    rwa [stateAtU, stateAtU, List.reverse_reverse, List.reverse_reverse] at h0
  have h1 := congrArg (valM (List.replicate r k)) h'
  rwa [valM_digitsM, valM_digitsM, List.prod_replicate, Nat.mod_eq_of_lt hm,
    Nat.mod_eq_of_lt hn] at h1

theorem stateAtU_mem_iff (k r : Nat) (hpos : ∀ q ∈ List.replicate r k, 0 < q)
    (ds : List Nat) :
    (∃ n, n < k ^ r ∧ stateAtU k r n = ds) ↔
      ds.length = r ∧ ∀ d ∈ ds, d < k := by
  constructor
  · rintro ⟨n, hn, rfl⟩
    have hf := forall₂_lt_replicate.mp (digitsM_lt hpos n)
    refine ⟨by rw [stateAtU, List.length_reverse]; exact hf.1, ?_⟩
    intro d hd
    rw [stateAtU, List.mem_reverse] at hd
    exact hf.2 d hd
  · rintro ⟨h1, h2⟩
    have hf2 : List.Forall₂ (· < ·) ds.reverse (List.replicate r k) :=
      forall₂_lt_replicate.mpr
        ⟨by rw [List.length_reverse]; exact h1,
          fun x hx => h2 x (List.mem_reverse.mp hx)⟩
    refine ⟨valM (List.replicate r k) ds.reverse, ?_, ?_⟩
    · have := valM_lt hf2
      rwa [List.prod_replicate] at this
    · rw [stateAtU, digitsM_valM hf2, List.reverse_reverse]

/-! ### Empty-source behavior -/

theorem buildItem_nil {T : Type} (r : Nat) :
    buildItem ([] : List T) (List.replicate (r + 1) 0) = none := by
  rw [List.replicate_succ]; rfl

theorem Iter.next_nil {T : Type} (r : Nat) :
    Iter.next (product_with_repeat ([] : List T) (r + 1)) = .error () := by
  rw [product_with_repeat, Iter.next, if_neg (by simp), buildItem_nil]

theorem Iter.stateTrace_nil {T : Type} (r fuel : Nat) :
    Iter.stateTrace (fuel + 1) (product_with_repeat ([] : List T) (r + 1)) =
      [] := by
  rw [Iter.stateTrace, Iter.next_nil]

theorem Iter.run_nil {T : Type} (r fuel : Nat) :
    Iter.run (fuel + 1) (product_with_repeat ([] : List T) (r + 1)) =
      .panicked [] := by
  rw [Iter.run, Iter.next_nil]

/-! ### Correspondence between the `known_size` variant and `Iter` -/

theorem knownSize_next_toIter {T : Type} (it : known_size.Iter T) :
    Iter.next (knownSizeToIter it) =
      match known_size.Iter.next it with
      | .error e => .error e
      | .ok (y, jt) => .ok (y, knownSizeToIter jt) := by
  obtain ⟨items, state, completed⟩ := it
  rw [Iter.next, known_size.Iter.next]
  dsimp only [knownSizeToIter]
  cases completed with
  | true => rfl
  | false =>
    rw [fromFn_state_eq_buildItem]
    cases hbi : buildItem items state <;> rfl

theorem knownSize_run_next_some {T : Type} {it it' : known_size.Iter T}
    {y : List T} (h : known_size.Iter.next it = .ok (some y, it')) (n : Nat) :
    known_size.Iter.run (n + 1) it =
      match known_size.Iter.run n it' with
      | .panicked ys => .panicked (y :: ys)
      | .exhausted ys => .exhausted (y :: ys)
      | .fuelOut ys => .fuelOut (y :: ys) := by
  rw [known_size.Iter.run, h]

theorem knownSize_run_toIter {T : Type} :
    ∀ (fuel : Nat) (it : known_size.Iter T),
      Iter.run fuel (knownSizeToIter it) = known_size.Iter.run fuel it := by
  intro fuel
  induction fuel with
  | zero => intro it; rfl
  | succ n ih =>
    intro it
    cases hn : known_size.Iter.next it with
    | error e =>
      have hnext : Iter.next (knownSizeToIter it) = .error e := by
        rw [knownSize_next_toIter, hn]
      rw [Iter.run, hnext, known_size.Iter.run, hn]
    | ok p =>
      obtain ⟨y, jt⟩ := p
      cases y with
      | none =>
        have hnext : Iter.next (knownSizeToIter it) = .ok (none, (knownSizeToIter jt)) := by
          rw [knownSize_next_toIter, hn]
        rw [Iter.run, hnext, known_size.Iter.run, hn]
      | some y =>
        have hnext : Iter.next (knownSizeToIter it) = .ok (some y, (knownSizeToIter jt)) := by
          rw [knownSize_next_toIter, hn]
        rw [Iter.run_next_some hnext, knownSize_run_next_some hn, ih jt]

theorem knownSize_next_completed {T : Type} {it : known_size.Iter T}
    (h : it.completed = true) :
    known_size.Iter.next it = .ok (none, it) := by
  rw [known_size.Iter.next, if_pos h]

theorem knownSize_run_completed {T : Type} {it : known_size.Iter T}
    (h : it.completed = true) (n : Nat) :
    known_size.Iter.run (n + 1) it = .exhausted [] := by
  rw [known_size.Iter.run, knownSize_next_completed h]

/-! ### Reachable-state invariant -/

theorem Iter.stepState_yield {T : Type} {it : Iter T} {item : List T}
    (hc : ¬ it.completed = true)
    (hb : buildItem it.items it.state = some item) :
    it.stepState = it.increment_state := by
  rw [Iter.stepState, Iter.next, if_neg hc, hb]

theorem Iter.stepState_completed {T : Type} {it : Iter T}
    (h : it.completed = true) : it.stepState = it := by
  rw [Iter.stepState, Iter.next_completed h]

theorem Iter.reach_inv {T : Type} (items : List T) (r : Nat)
    (hpos : ∀ q ∈ List.replicate r items.length, 0 < q) (n : Nat) :
    (Iter.stepState^[n] (product_with_repeat items r)).items = items ∧
      (Iter.stepState^[n] (product_with_repeat items r)).state.length = r ∧
      ∀ d ∈ (Iter.stepState^[n] (product_with_repeat items r)).state,
        d < items.length := by
  induction n with
  | zero =>
    refine ⟨rfl, by rw [Function.iterate_zero_apply, product_with_repeat,
      List.length_replicate], ?_⟩
    intro d hd
    rw [Function.iterate_zero_apply, product_with_repeat] at hd
    have hd0 := List.eq_of_mem_replicate hd
    subst hd0
    have hr : r ≠ 0 := by
      rintro rfl
      simp at hd
    exact hpos items.length (List.mem_replicate.mpr ⟨hr, rfl⟩)
  | succ n ih =>
    obtain ⟨hitems, hlen, hmem⟩ := ih
    rw [Function.iterate_succ_apply']
    set it := Iter.stepState^[n] (product_with_repeat items r) with hit
    by_cases hc : it.completed = true
    · rw [Iter.stepState_completed hc]
      exact ⟨hitems, hlen, hmem⟩
    · have hmem' : ∀ d ∈ it.state, d < it.items.length := by
        rw [hitems]; exact hmem
      have hbuild := buildItem_valid hmem'
      rw [Iter.stepState_yield hc hbuild]
      have hf2 : List.Forall₂ (· < ·) it.state.reverse
          (List.replicate r items.length) :=
        forall₂_lt_replicate.mpr
          ⟨by rw [List.length_reverse]; exact hlen,
            fun x hx => hmem x (List.mem_reverse.mp hx)⟩
      have hincA : incAux it.items.length it.state.reverse =
          incAuxM (List.replicate r items.length) it.state.reverse := by
        rw [incAux_eq_incAuxM, List.length_reverse, hlen, hitems]
      have hinc := incAuxM_spec hpos hf2
      have hstate : it.increment_state.state =
          (digitsM (List.replicate r items.length)
            ((valM (List.replicate r items.length) it.state.reverse + 1) %
              (List.replicate r items.length).prod)).reverse := by
        show (incAux it.items.length it.state.reverse).1.reverse = _
        rw [hincA, hinc]
      have hresf := forall₂_lt_replicate.mp (digitsM_lt hpos
        ((valM (List.replicate r items.length) it.state.reverse + 1) %
          (List.replicate r items.length).prod))
      refine ⟨hitems, ?_, ?_⟩
      · rw [hstate, List.length_reverse]
        exact hresf.1
      · intro d hd
        rw [hstate, List.mem_reverse] at hd
        exact hresf.2 d hd

theorem prodStepState_completed {T : Type} {it : Product T}
    (h : it.completed = true) : it.stepState = it := by
  rw [Product.stepState, prodNext_completed h]

theorem prodStepState_yield {T : Type} {it : Product T} {item : List T}
    (hc : ¬ it.completed = true)
    (hb : fromFn (fun i =>
      match it.items[i]?, it.state[i]? with
      | some src, some d => src[d]?
      | _, _ => none) it.items.length = some item) :
    it.stepState =
      { it with
        state := (incAuxM (it.items.map List.length).reverse
          it.state.reverse).1.reverse,
        completed := (incAuxM (it.items.map List.length).reverse
          it.state.reverse).2 } := by
  rw [Product.stepState, Product.next, if_neg hc, hb]

theorem forall₂_zero_sources {T : Type} {sources : List (List T)}
    (hk : ∀ s ∈ sources, s ≠ []) :
    List.Forall₂ (fun d (src : List T) => d < src.length)
      (List.replicate sources.length 0) sources := by
  induction sources with
  | nil => exact .nil
  | cons s ss ih =>
    rw [List.length_cons, List.replicate_succ]
    exact .cons (List.length_pos.mpr (hk s (by simp)))
      (ih (fun q hq => hk q (by simp [hq])))

theorem prodReach_inv {T : Type} (sources : List (List T))
    (hk : ∀ s ∈ sources, s ≠ []) (n : Nat) :
    (Product.stepState^[n] (product sources)).items = sources ∧
      List.Forall₂ (fun d (src : List T) => d < src.length)
        (Product.stepState^[n] (product sources)).state sources := by
  induction n with
  | zero =>
    refine ⟨rfl, ?_⟩
    rw [Function.iterate_zero_apply, product]
    exact forall₂_zero_sources hk
  | succ n ih =>
    obtain ⟨hitems, hval⟩ := ih
    rw [Function.iterate_succ_apply']
    set it := Product.stepState^[n] (product sources) with hit
    by_cases hc : it.completed = true
    · rw [prodStepState_completed hc]
      exact ⟨hitems, hval⟩
    · have hlen : it.state.length = sources.length := hval.length_eq
      have hb0 := fromFn_sources_eq_some hlen hval
      have hb : fromFn (fun i =>
          match it.items[i]?, it.state[i]? with
          | some src, some d => src[d]?
          | _, _ => none) it.items.length =
          some (yieldOf sources it.state) := by
        rw [hitems]
        exact hb0
      rw [prodStepState_yield hc hb]
      have hrad : (it.items.map List.length).reverse = radOf sources := by
        rw [hitems, radOf]
      have hf2 : List.Forall₂ (· < ·) it.state.reverse (radOf sources) := by
        have h1 : List.Forall₂ (· < ·) it.state (sources.map List.length) :=
          List.forall₂_map_right_iff.mpr hval
        have h2 := List.rel_reverse h1
        rw [radOf]
        exact h2
      have hinc := incAuxM_spec (radOf_pos hk) hf2
      refine ⟨hitems, ?_⟩
      show List.Forall₂ _ ((incAuxM (it.items.map List.length).reverse
        it.state.reverse).1.reverse) sources
      rw [hrad, hinc]
      exact stateAt_valid (radOf_pos hk) _

/-! ### Claim theorems -/

/-- Claim C1, counterexample: on the empty source with `r = 1` the run does
not report exhaustion after `0^1 = 0` items — the first `next` call panics
(out-of-bounds index into the empty source). -/
theorem C1_counterexample :
    Iter.run 2 (product_with_repeat ([] : List Nat) 1) = .panicked [] ∧
      ¬ ∃ ys, Iter.run 2 (product_with_repeat ([] : List Nat) 1) =
        RunOut.exhausted ys := by
  refine ⟨rfl, ?_⟩
  rintro ⟨ys, h⟩
  have h' : RunOut.panicked ([] : List (List Nat)) = RunOut.exhausted ys := h
  cases h'

/-- Claim C1 (amended): for every source of length `k` and repeat count `r`
with `k ≥ 1` or `r = 0`, the iterator yields exactly `k ^ r` items and then
reports exhaustion, the single item being the empty tuple when `r = 0`.
(When `k = 0` and `r > 0` the first `next` call panics instead; see the
counterexample.) -/
theorem C1_theorem {T : Type} (items : List T) (r : Nat)
    (h : 0 < items.length ∨ r = 0) :
    ∃ ys, Iter.run (items.length ^ r + 1) (product_with_repeat items r) =
        RunOut.exhausted ys ∧
      ys.length = items.length ^ r ∧ (r = 0 → ys = [[]]) := by
  refine ⟨(List.range (items.length ^ r)).map
    (fun n => yieldOfU items (stateAtU items.length r n)),
    Iter.run_full items r h, ?_, ?_⟩
  · rw [List.length_map, List.length_range]
  · rintro rfl
    rw [pow_zero]
    rfl

/-- Claim C1 witness: concrete instantiation at source `[0, 1]`, `r = 2`. -/
theorem C1_witness :
    ∃ ys, Iter.run ([0, 1].length ^ 2 + 1) (product_with_repeat [0, 1] 2) =
        RunOut.exhausted ys ∧
      ys.length = [0, 1].length ^ 2 ∧ (2 = 0 → ys = [[]]) :=
  C1_theorem [0, 1] 2 (Or.inl (by decide))

/-- Claim C2: the code violates the claim — on an empty source with `r = 3`
(and on a multi-source product with one empty source) the first `next` call
indexes out of bounds, modelled as the panic value `Except.error ()`, rather
than treating the iterator as immediately completed. -/
theorem C2_theorem :
    Iter.next (product_with_repeat ([] : List Nat) 3) = .error () ∧
      Product.next (product [[0, 1], ([] : List Nat)]) = .error () :=
  ⟨rfl, rfl⟩

/-- Claim C3: consecutive yielded digit states are strictly increasing in
left-to-right lexicographic order, and source `[A, B]` with `r = 2` yields
`(A,A), (A,B), (B,A), (B,B)` in that exact order. -/
theorem C3_theorem :
    (∀ (T : Type) (items : List T) (r : Nat),
      List.Chain' (List.Lex (· < ·))
        (Iter.stateTrace (items.length ^ r + 1)
          (product_with_repeat items r))) ∧
      ∀ (U : Type) (A B : U),
        Iter.run 5 (product_with_repeat [A, B] 2) =
          RunOut.exhausted [[A, A], [A, B], [B, A], [B, B]] := by
  constructor
  · intro T items r
    rcases Nat.eq_zero_or_pos items.length with hk | hk
    · obtain rfl : items = [] := List.length_eq_zero.mp hk
      cases r with
      | zero =>
        have h0 : Iter.stateTrace (([] : List T).length ^ 0 + 1)
            (product_with_repeat ([] : List T) 0) = [[]] := rfl
        rw [h0]
        exact List.chain'_singleton _
      | succ r =>
        have h0 : ([] : List T).length ^ (r + 1) + 1 = 0 + 1 := by
          rw [List.length_nil, Nat.zero_pow (by omega)]
        rw [h0, Iter.stateTrace_nil]
        exact List.chain'_nil
    · rw [Iter.stateTrace_full items r (Or.inl hk), List.chain'_map]
      obtain ⟨P, hP⟩ : ∃ P, items.length ^ r = P + 1 :=
        ⟨items.length ^ r - 1, by have := pow_pos hk r; omega⟩
      rw [hP]
      refine (List.chain'_range_succ _ P).mpr ?_
      intro m hm
      exact stateAtU_lex items.length r m (m + 1) (by omega) (by omega)
  · intro U A B
    rfl

/-- Claim C4: over the whole run, the yielded digit states are pairwise
distinct and are exactly the elements of `[0, k) ^ r` (every digit tuple of
length `r` with all digits below the source length occurs, and none other). -/
theorem C4_theorem {T : Type} (items : List T) (r : Nat) :
    (Iter.stateTrace (items.length ^ r + 1)
        (product_with_repeat items r)).Nodup ∧
      ∀ ds : List Nat,
        ds ∈ Iter.stateTrace (items.length ^ r + 1)
            (product_with_repeat items r) ↔
          ds.length = r ∧ ∀ d ∈ ds, d < items.length := by
  rcases Nat.eq_zero_or_pos items.length with hk | hk
  · obtain rfl : items = [] := List.length_eq_zero.mp hk
    cases r with
    | zero =>
      have h0 : Iter.stateTrace (([] : List T).length ^ 0 + 1)
          (product_with_repeat ([] : List T) 0) = [[]] := rfl
      rw [h0]
      refine ⟨List.nodup_singleton _, ?_⟩
      intro ds
      constructor
      · intro hds
        obtain rfl : ds = [] := by simpa using hds
        exact ⟨rfl, by simp⟩
      · rintro ⟨h1, h2⟩
        obtain rfl : ds = [] := List.length_eq_zero.mp h1
        simp
    | succ r =>
      have h0 : ([] : List T).length ^ (r + 1) + 1 = 0 + 1 := by
        rw [List.length_nil, Nat.zero_pow (by omega)]
      rw [h0, Iter.stateTrace_nil]
      refine ⟨List.nodup_nil, ?_⟩
      intro ds
      simp only [List.not_mem_nil, false_iff]
      rintro ⟨h1, h2⟩
      cases ds with
      | nil => simp at h1
      | cons d ds => exact absurd (h2 d (by simp)) (by omega)
  · have hpos : ∀ q ∈ List.replicate r items.length, 0 < q := by
      intro q hq; rw [List.eq_of_mem_replicate hq]; exact hk
    rw [Iter.stateTrace_full items r (Or.inl hk)]
    constructor
    · refine List.Nodup.map_on ?_ (List.nodup_range _)
      intro m hm n hn h
      exact stateAtU_inj items.length r (List.mem_range.mp hm)
        (List.mem_range.mp hn) h
    · intro ds
      rw [List.mem_map]
      constructor
      · rintro ⟨n, hn, rfl⟩
        exact (stateAtU_mem_iff items.length r hpos _).mp
          ⟨n, List.mem_range.mp hn, rfl⟩
      · intro hh
        obtain ⟨n, hn, hds⟩ := (stateAtU_mem_iff items.length r hpos ds).mpr hh
        exact ⟨n, List.mem_range.mpr hn, hds⟩

/-- Claim C5, counterexample: with sources `[[0,1], []]` (one source empty)
the run does not report exhaustion after `2 * 0 = 0` items — the first
`next` call panics (out-of-bounds index into the empty source). -/
theorem C5_counterexample :
    Product.run 2 (product [[0, 1], ([] : List Nat)]) = .panicked [] ∧
      ¬ ∃ ys, Product.run 2 (product [[0, 1], ([] : List Nat)]) =
        RunOut.exhausted ys := by
  refine ⟨rfl, ?_⟩
  rintro ⟨ys, h⟩
  have h' : RunOut.panicked ([] : List (List Nat)) = RunOut.exhausted ys := h
  cases h'

set_option maxHeartbeats 1600000 in
/-- Claim C5 (amended): when every source is nonempty, the multi-source
iterator yields exactly `k1 * k2 * … * kN` items and then reports
exhaustion; the concrete product of `[[A,B], [1,2,3]]` yields
`(A,1), (A,2), (A,3), (B,1), (B,2), (B,3)` in that order, position `i`
drawn from source `i`.  (When some source is empty the first `next` call
panics instead of yielding zero items; see the counterexample.) -/
theorem C5_theorem :
    (∀ (T : Type) (sources : List (List T)), (∀ s ∈ sources, s ≠ []) →
      ∃ ys, Product.run ((sources.map List.length).prod + 1)
          (product sources) = RunOut.exhausted ys ∧
        ys.length = (sources.map List.length).prod) ∧
      ∀ (U : Type) (A B x y z : U),
        Product.run 7 (product [[A, B], [x, y, z]]) =
          RunOut.exhausted
            [[A, x], [A, y], [A, z], [B, x], [B, y], [B, z]] := by
  constructor
  · intro T sources hk
    refine ⟨_, prodRun_full sources hk, ?_⟩
    rw [List.length_map, List.length_range]
  · intro U A B x y z
    rfl

/-- Claim C5 witness: concrete instantiation at sources `[[0], [1, 2]]`. -/
theorem C5_witness :
    ∃ ys, Product.run (([[0], [1, 2]].map List.length).prod + 1)
        (product [[0], [1, 2]]) = RunOut.exhausted ys ∧
      ys.length = ([[0], [1, 2]].map List.length).prod :=
  C5_theorem.1 Nat [[0], [1, 2]] (by decide)

/-- Claim C6: for every source, repeat length and fuel, the compile-time
length iterator and the runtime-length iterator produce identical runs
(same yields in the same order, same exhaustion and panic behavior). -/
theorem C6_theorem {T : Type} (items : List T) (r fuel : Nat) :
    known_size.Iter.run fuel (known_size.product_with_repeat items r) =
      Iter.run fuel (product_with_repeat items r) := by
  rw [← knownSize_run_toIter]
  rfl

/-- Claim C7: in all three variants, once the completion flag is true every
`next` call reports exhaustion and returns the iterator unchanged (so the
flag stays true forever), and every run from such a state yields nothing. -/
theorem C7_theorem :
    (∀ (T : Type) (it : Iter T), it.completed = true →
      Iter.next it = .ok (none, it) ∧
        ∀ n, Iter.run (n + 1) it = RunOut.exhausted []) ∧
      (∀ (T : Type) (it : known_size.Iter T), it.completed = true →
        known_size.Iter.next it = .ok (none, it) ∧
          ∀ n, known_size.Iter.run (n + 1) it = RunOut.exhausted []) ∧
      ∀ (T : Type) (it : Product T), it.completed = true →
        Product.next it = .ok (none, it) ∧
          ∀ n, Product.run (n + 1) it = RunOut.exhausted [] := by
  refine ⟨?_, ?_, ?_⟩
  · intro T it h
    exact ⟨Iter.next_completed h, fun n => Iter.run_completed h n⟩
  · intro T it h
    exact ⟨knownSize_next_completed h, fun n => knownSize_run_completed h n⟩
  · intro T it h
    exact ⟨prodNext_completed h, fun n => prodRun_completed h n⟩

/-- Claim C7 witness: concrete completed iterators of each variant. -/
theorem C7_witness :
    (Iter.next ⟨[0], [0], true⟩ = .ok (none, (⟨[0], [0], true⟩ : Iter Nat)) ∧
      ∀ n, Iter.run (n + 1) (⟨[0], [0], true⟩ : Iter Nat) =
        RunOut.exhausted []) ∧
      (known_size.Iter.next ⟨[0], [0], true⟩ =
          .ok (none, (⟨[0], [0], true⟩ : known_size.Iter Nat)) ∧
        ∀ n, known_size.Iter.run (n + 1)
            (⟨[0], [0], true⟩ : known_size.Iter Nat) = RunOut.exhausted []) ∧
      Product.next ⟨[[0]], [0], true⟩ =
          .ok (none, (⟨[[0]], [0], true⟩ : Product Nat)) ∧
        ∀ n, Product.run (n + 1) (⟨[[0]], [0], true⟩ : Product Nat) =
          RunOut.exhausted [] :=
  ⟨C7_theorem.1 Nat ⟨[0], [0], true⟩ rfl,
    C7_theorem.2.1 Nat ⟨[0], [0], true⟩ rfl,
    C7_theorem.2.2 Nat ⟨[[0]], [0], true⟩ rfl⟩

/-- Claim C8, counterexample: on the empty source with `r = 1` the freshly
constructed iterator (reachable with zero `next` calls) has digit `0`, which
is not a valid index into the empty source, and the lookup in `next` does go
out of bounds (panics). -/
theorem C8_counterexample :
    (product_with_repeat ([] : List Nat) 1).state = [0] ∧
      ¬ 0 < ([] : List Nat).length ∧
      Iter.next (product_with_repeat ([] : List Nat) 1) = .error () :=
  ⟨rfl, by decide, rfl⟩

/-- Claim C8 (amended): provided the source is nonempty (or `r = 0`) — and,
for the multi-source variant, every source is nonempty — every state
reachable by construction followed by any number of `next` calls has all its
digits valid indices into their sources, and the next `next` call never
panics.  (On an empty source the fresh state already violates the digit
invariant; see the counterexample.) -/
theorem C8_theorem :
    (∀ (T : Type) (items : List T) (r : Nat),
      (0 < items.length ∨ r = 0) → ∀ n,
        (∀ d ∈ (Iter.stepState^[n] (product_with_repeat items r)).state,
          d < items.length) ∧
          Iter.next (Iter.stepState^[n] (product_with_repeat items r)) ≠
            .error ()) ∧
      ∀ (T : Type) (sources : List (List T)), (∀ s ∈ sources, s ≠ []) → ∀ n,
        List.Forall₂ (fun d (src : List T) => d < src.length)
            (Product.stepState^[n] (product sources)).state sources ∧
          Product.next (Product.stepState^[n] (product sources)) ≠
            .error () := by
  constructor
  · intro T items r h n
    have hpos : ∀ q ∈ List.replicate r items.length, 0 < q := by
      intro q hq
      rcases h with h | rfl
      · rw [List.eq_of_mem_replicate hq]; exact h
      · simp at hq
    obtain ⟨hitems, hlen, hmem⟩ := Iter.reach_inv items r hpos n
    refine ⟨hmem, ?_⟩
    set it := Iter.stepState^[n] (product_with_repeat items r)
    by_cases hc : it.completed = true
    · rw [Iter.next_completed hc]
      exact fun hcon => Except.noConfusion hcon
    · have hmem' : ∀ d ∈ it.state, d < it.items.length := by
        rw [hitems]; exact hmem
      have hbuild := buildItem_valid hmem'
      rw [Iter.next, if_neg hc, hbuild]
      exact fun hcon => Except.noConfusion hcon
  · intro T sources hk n
    obtain ⟨hitems, hval⟩ := prodReach_inv sources hk n
    refine ⟨hval, ?_⟩
    set it := Product.stepState^[n] (product sources)
    by_cases hc : it.completed = true
    · rw [prodNext_completed hc]
      exact fun hcon => Except.noConfusion hcon
    · have hlen : it.state.length = sources.length := hval.length_eq
      have hb0 := fromFn_sources_eq_some hlen hval
      have hb : fromFn (fun i =>
          match it.items[i]?, it.state[i]? with
          | some src, some d => src[d]?
          | _, _ => none) it.items.length =
          some (yieldOf sources it.state) := by
        rw [hitems]; exact hb0
      rw [Product.next, if_neg hc, hb]
      exact fun hcon => Except.noConfusion hcon

/-- Claim C8 witness: concrete instantiations of both conjuncts. -/
theorem C8_witness :
    ((∀ d ∈ (Iter.stepState^[3] (product_with_repeat [0, 1] 1)).state,
        d < [0, 1].length) ∧
      Iter.next (Iter.stepState^[3] (product_with_repeat [0, 1] 1)) ≠
        .error ()) ∧
      List.Forall₂ (fun d (src : List Nat) => d < src.length)
          (Product.stepState^[2] (product [[0, 1]])).state [[0, 1]] ∧
        Product.next (Product.stepState^[2] (product [[0, 1]])) ≠ .error () :=
  ⟨C8_theorem.1 Nat [0, 1] 1 (Or.inl (by decide)) 3,
    C8_theorem.2 Nat [[0, 1]] (by decide) 2⟩

/-- Claim C9: iteration is deterministic — two iterators constructed from
equal sources with equal repeat counts produce identical runs at every fuel.
The embedded code is a pure function of the constructor arguments, with no
source of nondeterminism. -/
theorem C9_theorem {T : Type} (items₁ items₂ : List T) (r₁ r₂ fuel : Nat)
    (h1 : items₁ = items₂) (h2 : r₁ = r₂) :
    Iter.run fuel (product_with_repeat items₁ r₁) =
      Iter.run fuel (product_with_repeat items₂ r₂) := by
  subst h1
  subst h2
  rfl

/-- Claim C9 witness: concrete instantiation at source `[0, 1]`, `r = 2`. -/
theorem C9_witness :
    Iter.run 5 (product_with_repeat [0, 1] 2) =
      Iter.run 5 (product_with_repeat [0, 1] 2) :=
  C9_theorem [0, 1] [0, 1] 2 2 5 rfl rfl

/-- Claim C10: in all three variants, a `next` call on a completed iterator
returns no item and leaves the iterator value completely unchanged. -/
theorem C10_theorem :
    (∀ (T : Type) (it : Iter T), it.completed = true →
      Iter.next it = .ok (none, it)) ∧
      (∀ (T : Type) (it : known_size.Iter T), it.completed = true →
        known_size.Iter.next it = .ok (none, it)) ∧
      ∀ (T : Type) (it : Product T), it.completed = true →
        Product.next it = .ok (none, it) :=
  ⟨fun _ _ h => Iter.next_completed h,
    fun _ _ h => knownSize_next_completed h,
    fun _ _ h => prodNext_completed h⟩

/-- Claim C10 witness: concrete completed iterators of each variant. -/
theorem C10_witness :
    Iter.next (⟨[5], [0], true⟩ : Iter Nat) =
        .ok (none, (⟨[5], [0], true⟩ : Iter Nat)) ∧
      known_size.Iter.next (⟨[5], [0], true⟩ : known_size.Iter Nat) =
        .ok (none, (⟨[5], [0], true⟩ : known_size.Iter Nat)) ∧
      Product.next (⟨[[5]], [0], true⟩ : Product Nat) =
        .ok (none, (⟨[[5]], [0], true⟩ : Product Nat)) :=
  ⟨C10_theorem.1 Nat ⟨[5], [0], true⟩ rfl,
    C10_theorem.2.1 Nat ⟨[5], [0], true⟩ rfl,
    C10_theorem.2.2 Nat ⟨[[5]], [0], true⟩ rfl⟩
